import Mathlib

/-!
Shallow embedding of the load engine of `step3_load.py` (turning-pages-etl).

Modelling conventions:
- A missing / NaN CSV cell is `none`; `to_str` mirrors the Python helper
  (trim, map empty to `none`).  The numeric conversions `to_int` / `to_dec`
  are modelled by taking the staged numeric fields as already parsed
  `Option Int` / `Option Rat` (a failed or null conversion is `none`), and
  `to_varbinary_from_hex` by taking the staged digest as already parsed
  `Option (List Nat)` bytes.
- Database tables are lists of stored rows; identity columns are modelled by
  an explicit next-surrogate-key counter.  `SYSUTCDATETIME()` is modelled by
  a run-level clock value `now : Nat`.
- Python truthiness (`not code`, `all([...])`, `if not bk`) is modelled by
  explicit truthiness functions on the option types involved.
-/

namespace ETL

/-- bytes of a change-detection digest (pyodbc varbinary) -/
abbrev Bytes := List Nat

/-- Python `str.lower()` modelled at the character level (ASCII case fold,
which covers the natural keys involved) -/
def strLower (s : String) : String :=
  String.mk (s.data.map Char.toLower)

/-- Python `str.strip()` modelled at the character level: drop leading and
trailing whitespace -/
def strTrim (s : String) : String :=
  String.mk (((s.data.dropWhile Char.isWhitespace).reverse.dropWhile Char.isWhitespace).reverse)

/-- Python helper `to_str`: `None`/NaN stays none, otherwise strip and map
the empty string to none. -/
def to_str (v : Option String) : Option String :=
  match v with
  | none => none
  | some s =>
    let t := strTrim s
    if t = "" then none else some t

/-- Python truthiness of a `to_str` result (`None` and `""` are falsy). -/
def truthyStr : Option String → Bool
  | none => false
  | some s => !(s == "")

/-- Python truthiness of a `to_int` result (`None` and `0` are falsy). -/
def truthyInt : Option Int → Bool
  | none => false
  | some n => !(n == 0)

/-- Python truthiness of a `to_dec` result (`None` and `0.0` are falsy). -/
def truthyRat : Option Rat → Bool
  | none => false
  | some q => !(q == 0)

/-- Python truthiness of a surrogate-key dict lookup (`None` and `0` falsy). -/
def truthyNat : Option Nat → Bool
  | none => false
  | some n => !(n == 0)

/-! ### Fixed-Attribute Loader (SCD0): `stage_paymentmethod_insert_only` -/

/-- one staged payment-method row (code and display name cells) -/
structure PMRow where
  code : Option String
  name : Option String
deriving DecidableEq

/-- loop state of `stage_paymentmethod_insert_only`: the Python `existing`
set of codes, the `Dim_PaymentMethod` table as (Code, DisplayName) rows, and
the `to_insert` counter. -/
structure PMState where
  existing : List String
  table : List (String × String)
  inserted : Nat
deriving DecidableEq

/-- one iteration of the row loop of `stage_paymentmethod_insert_only` -/
def pmStep (st : PMState) (r : PMRow) : PMState :=
  match to_str r.code, to_str r.name with
  | some code, some name =>
    if (st.existing.map strLower).contains (strLower code) then st
    else
      { existing := code :: st.existing
        table := st.table ++ [(code, name)]
        inserted := st.inserted + 1 }
  | _, _ => st

/-- the whole Fixed-Attribute Loader run: fetch the existing codes from the
dimension table, then loop over the staged rows -/
def stage_paymentmethod_insert_only (table : List (String × String))
    (staged : List PMRow) : PMState :=
  staged.foldl pmStep { existing := table.map Prod.fst, table := table, inserted := 0 }

/-- Modelled from the spec (section 4.1 wording), for comparison only:
collapse every run of adjacent spaces into a single space -/
def collapseSpaces : List Char → List Char
  | c1 :: c2 :: rest =>
    if c1 == ' ' && c2 == ' ' then collapseSpaces (c2 :: rest)
    else c1 :: collapseSpaces (c2 :: rest)
  | l => l

/-- Modelled from the spec (section 4.1 wording), for comparison only: key
normalization as the spec describes it — trim, collapse internal whitespace,
case-fold. -/
def specNormalizeKey (s : String) : String :=
  strLower (String.mk (collapseSpaces ((strTrim s).data.map (fun c => if c.isWhitespace then ' ' else c))))

/-! ### Overwrite Loader (SCD1): `stage_book_upsert_type1` -/

/-- one staged book row -/
structure BookRow where
  isbn : Option String
  title : Option String
  language : Option String
  publishYear : Option Int
  pages : Option Int
  listPrice : Option Rat
deriving DecidableEq

/-- one stored row of `dwh.Dim_Book` (Title and ListPrice are NOT NULL) -/
structure StoredBook where
  isbn : String
  title : String
  language : Option String
  publishYear : Option Int
  pages : Option Int
  listPrice : Rat
  updatedAt : Nat
deriving DecidableEq

/-- the SET clause of the book UPDATE statement applied to one matching
stored row: COALESCE on Title and ListPrice, direct overwrite of Language,
PublishYear and Pages, UpdatedAt refreshed -/
def bookApplyUpdate (now : Nat) (title language : Option String)
    (publishYear pages : Option Int) (listPrice : Option Rat)
    (b : StoredBook) : StoredBook :=
  { b with
    title := title.getD b.title
    language := language
    publishYear := publishYear
    pages := pages
    listPrice := listPrice.getD b.listPrice
    updatedAt := now }

/-- loop state of `stage_book_upsert_type1` -/
structure BookState where
  table : List StoredBook
  updated : Nat
  inserted : Nat
deriving DecidableEq

/-- one iteration of the row loop of `stage_book_upsert_type1`: try the
UPDATE by ISBN; if no row was affected, insert (requiring a title and
defaulting a missing list price to 0.00) -/
def bookStep (now : Nat) (st : BookState) (r : BookRow) : BookState :=
  match to_str r.isbn with
  | none => st
  | some isbn =>
    let title := to_str r.title
    let language := to_str r.language
    if st.table.any (fun b => b.isbn == isbn) then
      { st with
        table := st.table.map (fun b =>
          if b.isbn = isbn then
            bookApplyUpdate now title language r.publishYear r.pages r.listPrice b
          else b)
        updated := st.updated + 1 }
    else
      match title with
      | none => st
      | some t =>
        { st with
          table := st.table ++
            [{ isbn := isbn, title := t, language := language,
               publishYear := r.publishYear, pages := r.pages,
               listPrice := r.listPrice.getD 0, updatedAt := now }]
          inserted := st.inserted + 1 }

/-- the whole Overwrite Loader run -/
def stage_book_upsert_type1 (now : Nat) (table : List StoredBook)
    (staged : List BookRow) : BookState :=
  staged.foldl (bookStep now) { table := table, updated := 0, inserted := 0 }

/-- number of staged rows on which the loop performs no write and bumps no
counter (these are exactly the rows the printed `unchanged` figure
`read - updated - inserted` accounts for) -/
def bookSkipCount (now : Nat) : BookState → List BookRow → Nat
  | _, [] => 0
  | st, r :: rs =>
    (if bookStep now st r = st then 1 else 0) + bookSkipCount now (bookStep now st r) rs

/-! ### Versioned Loader (SCD2): `stage_customer_scd2` -/

/-- one staged customer row (digest already hex-decoded, see header) -/
structure CustRow where
  nk : Option String
  displayName : Option String
  phone : Option String
  notes : Option String
  hashDiff : Option Bytes
deriving DecidableEq

/-- one stored row of `dwh.Dim_Customer` -/
structure StoredCust where
  sk : Nat
  nk : String
  displayName : Option String
  phone : Option String
  notes : Option String
  validFrom : Nat
  validTo : Option Nat
  isCurrent : Bool
  hashDiff : Option Bytes
deriving DecidableEq

/-- TOP (1) … ORDER BY CustomerSK DESC over a result set: the row with the
highest surrogate key, none on an empty set -/
def maxBySk : List StoredCust → Option StoredCust
  | [] => none
  | c :: rest =>
    match maxBySk rest with
    | none => some c
    | some b => if c.sk < b.sk then some b else some c

/-- the current-version SELECT of `stage_customer_scd2`: highest-SK row with
the given natural key and `IsCurrent = 1` -/
def findCurrent (table : List StoredCust) (nk : String) : Option StoredCust :=
  maxBySk (table.filter (fun c => c.nk == nk && c.isCurrent))

/-- the close-old UPDATE applied to one stored row: rows whose surrogate key
matches get `ValidTo = now, IsCurrent = 0` -/
def closeRow (now : Nat) (sk : Nat) (c : StoredCust) : StoredCust :=
  if c.sk = sk then { c with validTo := some now, isCurrent := false } else c

/-- loop state of `stage_customer_scd2` -/
structure CustState where
  table : List StoredCust
  nextSk : Nat
  inserted_new : Nat
  scd2_changed : Nat
  unchanged : Nat
  closed_old : Nat
deriving DecidableEq

/-- one iteration of the row loop of `stage_customer_scd2`.  `hasHashCol`
records whether the staged dataset has a `HashDiff` column: without it the
staged digest is `None` and the digest comparison is skipped
(`equal_hash = True`). -/
def custStep (hasHashCol : Bool) (now : Nat) (st : CustState) (r : CustRow) : CustState :=
  match to_str r.nk with
  | none => st
  | some nk =>
    let nkNorm := strLower nk
    let disp := to_str r.displayName
    let phone := to_str r.phone
    let notes := to_str r.notes
    let hd := if hasHashCol then r.hashDiff else none
    match findCurrent st.table nkNorm with
    | none =>
      { st with
        table := st.table ++
          [{ sk := st.nextSk, nk := nkNorm, displayName := disp, phone := phone,
             notes := notes, validFrom := now, validTo := none,
             isCurrent := true, hashDiff := hd }]
        nextSk := st.nextSk + 1
        inserted_new := st.inserted_new + 1 }
    | some cur =>
      let equalHash := if hasHashCol then cur.hashDiff == hd else true
      if equalHash then { st with unchanged := st.unchanged + 1 }
      else
        { st with
          table := (st.table.map (closeRow now cur.sk)) ++
            [{ sk := st.nextSk, nk := nkNorm, displayName := disp, phone := phone,
               notes := notes, validFrom := now, validTo := none,
               isCurrent := true, hashDiff := hd }]
          nextSk := st.nextSk + 1
          scd2_changed := st.scd2_changed + 1
          closed_old := st.closed_old + 1 }

/-- the whole Versioned Loader run over the staged customer rows, starting
from a stored table and its identity counter -/
def stage_customer_scd2 (hasHashCol : Bool) (now : Nat) (table : List StoredCust)
    (nextSk : Nat) (staged : List CustRow) : CustState :=
  staged.foldl (custStep hasHashCol now)
    { table := table, nextSk := nextSk, inserted_new := 0, scd2_changed := 0,
      unchanged := 0, closed_old := 0 }

/-! ### Lookup Builder and Fact Reloader: `stage_build_lookups`,
`fetch_valid_dates_for`, `stage_fact_reload` -/

/-- the three natural-key → surrogate-key maps of `stage_build_lookups` -/
structure Lookups where
  pm : List (String × Nat)
  bk : List (String × Nat)
  cu : List (String × Nat)
deriving DecidableEq

/-- `stage_build_lookups`: lowered natural key → surrogate key per dimension;
the payment-method and book tables enter as their projected (NK, SK) rows,
the customer map is restricted to rows with `IsCurrent = 1` -/
def stage_build_lookups (pmRows bkRows : List (String × Nat))
    (custTable : List StoredCust) : Lookups :=
  { pm := pmRows.map (fun p => (strLower p.1, p.2))
    bk := bkRows.map (fun p => (strLower p.1, p.2))
    cu := (custTable.filter (fun c => c.isCurrent)).map (fun c => (strLower c.nk, c.sk)) }

/-- `fetch_valid_dates_for`: the calendar keys of `Dim_Date` among the given
key set (zero keys are dropped from the IN list; an empty key set returns
the empty set without querying) -/
def fetch_valid_dates_for (dimDate : List Int) (keys : List Int) : List Int :=
  if keys.isEmpty then []
  else dimDate.filter (fun d => (keys.filter (fun k => !(k == 0))).contains d)

/-- one staged fact row -/
structure FactRow where
  isbn : Option String
  cust : Option String
  code : Option String
  dkey : Option Int
  qty : Option Rat
  price : Option Rat
  order : Option String
  ship : Option String
deriving DecidableEq

/-- one inserted row of `dwh.Fact_Sales` -/
structure InsertedFact where
  bookSK : Nat
  customerSK : Nat
  pmSK : Nat
  dateSK : Int
  quantity : Rat
  unitPrice : Rat
  orderNumber : String
  shippingAddress : String
deriving DecidableEq

/-- loop state of `stage_fact_reload` (the table starts empty: TRUNCATE) -/
structure FactState where
  factTable : List InsertedFact
  inserted : Nat
  fk_missing : Nat
  invalid_req : Nat
  invalid_date : Nat
  qty_zero : Nat
  missPm : Nat
  missBk : Nat
  missCu : Nat
deriving DecidableEq

/-- one iteration of the row loop of `stage_fact_reload`: the Python
`all([...])` required check is truthiness (so a zero date key, quantity or
price fails it), then date validity, then `qty is None or qty <= 0`, then
surrogate-key resolution, then the INSERT -/
def factStep (lk : Lookups) (valid_dates : List Int) (st : FactState)
    (r : FactRow) : FactState :=
  let isbn := to_str r.isbn
  let cust := to_str r.cust
  let code := to_str r.code
  let order := to_str r.order
  let ship := to_str r.ship
  if !(truthyStr isbn && truthyStr cust && truthyStr code && truthyInt r.dkey &&
       truthyRat r.qty && truthyRat r.price && truthyStr order && truthyStr ship) then
    { st with invalid_req := st.invalid_req + 1 }
  else if !(match r.dkey with | some d => valid_dates.contains d | none => false) then
    { st with invalid_date := st.invalid_date + 1 }
  else if (match r.qty with | none => true | some v => decide (v ≤ 0)) then
    { st with qty_zero := st.qty_zero + 1 }
  else
    let bk := match isbn with | some s => lk.bk.lookup (strLower s) | none => none
    let cu := match cust with | some s => lk.cu.lookup (strLower s) | none => none
    let pm := match code with | some s => lk.pm.lookup (strLower s) | none => none
    if !(truthyNat bk && truthyNat cu && truthyNat pm) then
      { st with
        fk_missing := st.fk_missing + 1
        missPm := st.missPm + (if truthyNat pm then 0 else 1)
        missBk := st.missBk + (if truthyNat bk then 0 else 1)
        missCu := st.missCu + (if truthyNat cu then 0 else 1) }
    else
      { st with
        factTable := st.factTable ++
          [{ bookSK := bk.getD 0, customerSK := cu.getD 0, pmSK := pm.getD 0,
             dateSK := r.dkey.getD 0, quantity := r.qty.getD 0,
             unitPrice := r.price.getD 0, orderNumber := order.getD "",
             shippingAddress := ship.getD "" }]
        inserted := st.inserted + 1 }

/-- referential integrity of one inserted fact row against the dimension
tables: each surrogate key is carried by a dimension row (a current one for
the customer dimension) and the date key is a calendar key -/
def GoodFact (pmRows bkRows : List (String × Nat)) (custTable : List StoredCust)
    (dimDate : List Int) (f : InsertedFact) : Prop :=
  (∃ p ∈ pmRows, p.2 = f.pmSK) ∧
  (∃ p ∈ bkRows, p.2 = f.bookSK) ∧
  (∃ c ∈ custTable, c.isCurrent = true ∧ c.sk = f.customerSK) ∧
  f.dateSK ∈ dimDate

/-- total of the five per-row outcome counters of the Fact Reloader -/
def bucketSum (st : FactState) : Nat :=
  st.inserted + st.fk_missing + st.invalid_req + st.invalid_date + st.qty_zero

/-- the whole Fact Reloader run: build the lookups, batch-validate the
distinct staged date keys, truncate, then loop -/
def stage_fact_reload (pmRows bkRows : List (String × Nat))
    (custTable : List StoredCust) (dimDate : List Int)
    (staged : List FactRow) : FactState :=
  let lk := stage_build_lookups pmRows bkRows custTable
  let valid := fetch_valid_dates_for dimDate ((staged.filterMap FactRow.dkey).eraseDups)
  staged.foldl (factStep lk valid)
    { factTable := [], inserted := 0, fk_missing := 0, invalid_req := 0,
      invalid_date := 0, qty_zero := 0, missPm := 0, missBk := 0, missCu := 0 }

/-! ### Well-formedness of the versioned customer dimension (spec section 3
invariants, used to state the history law) -/

/-- every stored surrogate key is below the identity counter -/
def SkBound (table : List StoredCust) (nextSk : Nat) : Prop :=
  ∀ c ∈ table, c.sk < nextSk

/-- surrogate keys are pairwise distinct (identity column) -/
def SkNodup (table : List StoredCust) : Prop :=
  (table.map StoredCust.sk).Nodup

/-- ValidTo is null exactly on current rows -/
def ValidToIff (table : List StoredCust) : Prop :=
  ∀ c ∈ table, c.validTo = none ↔ c.isCurrent = true

/-- at most one current row per natural key -/
def AtMostOneCurrent (table : List StoredCust) : Prop :=
  ∀ c1 ∈ table, ∀ c2 ∈ table, c1.isCurrent = true → c2.isCurrent = true →
    c1.nk = c2.nk → c1 = c2

/-- the full customer-dimension invariant -/
def CustWF (table : List StoredCust) (nextSk : Nat) : Prop :=
  SkBound table nextSk ∧ SkNodup table ∧ ValidToIff table ∧ AtMostOneCurrent table

/-- normalized natural keys of the staged customer rows the loop actually
processes (rows whose key survives `to_str`) -/
def processedKeys (staged : List CustRow) : List String :=
  staged.filterMap (fun r => (to_str r.nk).map strLower)

/-! ## Generic fold lemmas -/

/-- a fold over a list all of whose elements fix the state is the identity -/
theorem foldl_fixed {σ α : Type} (f : σ → α → σ) (s : σ) :
    ∀ l : List α, (∀ a ∈ l, f s a = s) → l.foldl f s = s
  | [], _ => rfl
  | a :: l, h => by
    rw [List.foldl_cons, h a (List.mem_cons_self a l),
      foldl_fixed f s l (fun b hb => h b (List.mem_cons_of_mem a hb))]

/-! ## Fixed-Attribute Loader lemmas -/

/-- Boolean membership on lists agrees with propositional membership -/
theorem contains_iff_mem {A : Type} [BEq A] [LawfulBEq A] (l : List A) (a : A) :
    l.contains a = true ↔ a ∈ l :=
  List.elem_iff

/-- characterization of one loader step on a row without a valid code or
name: nothing happens -/
theorem pmStep_invalid (st : PMState) (r : PMRow)
    (h : to_str r.code = none ∨ to_str r.name = none) : pmStep st r = st := by
  unfold pmStep
  rcases h with h | h
  · rw [h]
  · rw [h]
    cases to_str r.code <;> rfl

/-- characterization of one loader step on a valid row whose lowered code is
already known: nothing happens -/
theorem pmStep_known (st : PMState) (r : PMRow) (code name : String)
    (hc : to_str r.code = some code) (hn : to_str r.name = some name)
    (hm : strLower code ∈ st.existing.map strLower) : pmStep st r = st := by
  unfold pmStep
  rw [hc, hn]
  dsimp only
  rw [if_pos ((contains_iff_mem _ _).mpr hm)]

/-- characterization of one loader step on a valid row whose lowered code is
not yet known: the row is inserted and the code remembered -/
theorem pmStep_new (st : PMState) (r : PMRow) (code name : String)
    (hc : to_str r.code = some code) (hn : to_str r.name = some name)
    (hm : strLower code ∉ st.existing.map strLower) :
    pmStep st r = { existing := code :: st.existing,
                    table := st.table ++ [(code, name)],
                    inserted := st.inserted + 1 } := by
  unfold pmStep
  rw [hc, hn]
  dsimp only
  rw [if_neg (fun hcon => hm ((contains_iff_mem _ _).mp hcon))]

/-- a loader step never removes a code from the known set -/
theorem pmStep_mono (st : PMState) (r : PMRow) (s : String)
    (h : s ∈ st.existing.map strLower) : s ∈ (pmStep st r).existing.map strLower := by
  cases hc : to_str r.code with
  | none => rw [pmStep_invalid st r (Or.inl hc)]; exact h
  | some code =>
    cases hn : to_str r.name with
    | none => rw [pmStep_invalid st r (Or.inr hn)]; exact h
    | some name =>
      by_cases hm : strLower code ∈ st.existing.map strLower
      · rw [pmStep_known st r code name hc hn hm]; exact h
      · rw [pmStep_new st r code name hc hn hm]
        exact List.mem_cons_of_mem _ h

/-- known codes only grow along the whole run -/
theorem pmRun_mono (l : List PMRow) (st : PMState) (s : String)
    (h : s ∈ st.existing.map strLower) :
    s ∈ (l.foldl pmStep st).existing.map strLower := by
  induction l generalizing st with
  | nil => exact h
  | cons a l ih => exact ih (pmStep st a) (pmStep_mono st a s h)

/-- the Python `existing` set and the table's code column stay in sync
(case-insensitively) along one step -/
theorem pmStep_keys (st : PMState) (r : PMRow)
    (h : ∀ s, s ∈ st.existing.map strLower ↔ s ∈ st.table.map (fun p => strLower p.1)) :
    ∀ s, s ∈ (pmStep st r).existing.map strLower ↔
      s ∈ (pmStep st r).table.map (fun p => strLower p.1) := by
  intro s
  cases hc : to_str r.code with
  | none => rw [pmStep_invalid st r (Or.inl hc)]; exact h s
  | some code =>
    cases hn : to_str r.name with
    | none => rw [pmStep_invalid st r (Or.inr hn)]; exact h s
    | some name =>
      by_cases hm : strLower code ∈ st.existing.map strLower
      · rw [pmStep_known st r code name hc hn hm]; exact h s
      · rw [pmStep_new st r code name hc hn hm]
        simp only [List.map_cons, List.map_append, List.mem_cons, List.mem_append,
          List.map_nil, List.mem_singleton]
        rw [h s]
        tauto

/-- the sync above holds at the end of the run -/
theorem pmRun_keys (l : List PMRow) (st : PMState)
    (h : ∀ s, s ∈ st.existing.map strLower ↔ s ∈ st.table.map (fun p => strLower p.1)) :
    ∀ s, s ∈ (l.foldl pmStep st).existing.map strLower ↔
      s ∈ (l.foldl pmStep st).table.map (fun p => strLower p.1) := by
  induction l generalizing st with
  | nil => exact h
  | cons a l ih => exact ih (pmStep st a) (pmStep_keys st a h)

/-- after a run, every staged row with a valid code and name has its lowered
code in the known set -/
theorem pmRun_known (l : List PMRow) : ∀ (st : PMState) (r : PMRow), r ∈ l →
    ∀ code name, to_str r.code = some code → to_str r.name = some name →
    strLower code ∈ (l.foldl pmStep st).existing.map strLower := by
  induction l with
  | nil => intro st r hr; cases hr
  | cons a l ih =>
    intro st r hr code name hc hn
    rcases List.mem_cons.mp hr with rfl | hr2
    · apply pmRun_mono l (pmStep st r)
      by_cases hm : strLower code ∈ st.existing.map strLower
      · rw [pmStep_known st r code name hc hn hm]; exact hm
      · rw [pmStep_new st r code name hc hn hm]
        exact List.mem_cons_self _ _
    · exact ih (pmStep st a) r hr2 code name hc hn

/-- C7 — Fixed-Attribute Loader idempotence: running the loader a second
time with the identical staged input against the state produced by the
first run yields inserted = 0 and leaves the dimension table unchanged. -/
theorem C7_pm_idempotent (table : List (String × String)) (staged : List PMRow) :
    (stage_paymentmethod_insert_only
        (stage_paymentmethod_insert_only table staged).table staged).inserted = 0 ∧
    (stage_paymentmethod_insert_only
        (stage_paymentmethod_insert_only table staged).table staged).table =
      (stage_paymentmethod_insert_only table staged).table := by
  have hinitKA : ∀ s, s ∈ ((table.map Prod.fst).map strLower) ↔
      s ∈ table.map (fun p => strLower p.1) := by
    intro s
    rw [List.map_map]
    rfl
  have hfix : ∀ r ∈ staged,
      pmStep { existing := (stage_paymentmethod_insert_only table staged).table.map Prod.fst,
               table := (stage_paymentmethod_insert_only table staged).table,
               inserted := 0 } r =
        { existing := (stage_paymentmethod_insert_only table staged).table.map Prod.fst,
          table := (stage_paymentmethod_insert_only table staged).table,
          inserted := 0 } := by
    intro r hr
    cases hc : to_str r.code with
    | none => exact pmStep_invalid _ r (Or.inl hc)
    | some code =>
      cases hn : to_str r.name with
      | none => exact pmStep_invalid _ r (Or.inr hn)
      | some name =>
        have hknown := pmRun_known staged
          { existing := table.map Prod.fst, table := table, inserted := 0 }
          r hr code name hc hn
        have hkeys := pmRun_keys staged
          { existing := table.map Prod.fst, table := table, inserted := 0 }
          hinitKA (strLower code)
        have htab : strLower code ∈
            (stage_paymentmethod_insert_only table staged).table.map (fun p => strLower p.1) :=
          hkeys.mp hknown
        have hmem : strLower code ∈
            ((stage_paymentmethod_insert_only table staged).table.map Prod.fst).map strLower := by
          rw [List.map_map]
          exact htab
        exact pmStep_known _ r code name hc hn hmem
  have hrun : stage_paymentmethod_insert_only
      (stage_paymentmethod_insert_only table staged).table staged =
      { existing := (stage_paymentmethod_insert_only table staged).table.map Prod.fst,
        table := (stage_paymentmethod_insert_only table staged).table,
        inserted := 0 } := by
    unfold stage_paymentmethod_insert_only
    exact foldl_fixed pmStep _ staged hfix
  rw [hrun]
  exact ⟨rfl, rfl⟩

/-! ## Fact Reloader partition law -/

/-- each loop iteration settles its row into exactly one outcome bucket:
the bucket total rises by one and no counter ever falls -/
theorem factStep_partition (lk : Lookups) (valid : List Int) (st : FactState) (r : FactRow) :
    bucketSum (factStep lk valid st r) = bucketSum st + 1 ∧
    st.inserted ≤ (factStep lk valid st r).inserted ∧
    st.fk_missing ≤ (factStep lk valid st r).fk_missing ∧
    st.invalid_req ≤ (factStep lk valid st r).invalid_req ∧
    st.invalid_date ≤ (factStep lk valid st r).invalid_date ∧
    st.qty_zero ≤ (factStep lk valid st r).qty_zero := by
  unfold factStep bucketSum
  dsimp only
  repeat' split
  all_goals simp
  all_goals omega

/-- the bucket total grows by exactly the number of rows folded -/
theorem factRun_partition (lk : Lookups) (valid : List Int) (l : List FactRow)
    (st : FactState) :
    bucketSum (l.foldl (factStep lk valid) st) = bucketSum st + l.length := by
  induction l generalizing st with
  | nil => rfl
  | cons a l ih =>
    rw [List.foldl_cons, ih (factStep lk valid st a),
      (factStep_partition lk valid st a).1, List.length_cons]
    omega

/-- C2 — Fact Reloader partition law: every staged fact row lands in exactly
one of the buckets inserted, invalid_req, invalid_date, qty_zero,
fk_missing (each step raises the bucket total by one while every single
bucket is non-decreasing), and the five final counts sum to the number of
staged rows read. -/
theorem C2_fact_partition (pmRows bkRows : List (String × Nat))
    (custTable : List StoredCust) (dimDate : List Int) (staged : List FactRow) :
    bucketSum (stage_fact_reload pmRows bkRows custTable dimDate staged) = staged.length ∧
    (∀ lk valid st r, bucketSum (factStep lk valid st r) = bucketSum st + 1 ∧
      st.inserted ≤ (factStep lk valid st r).inserted ∧
      st.fk_missing ≤ (factStep lk valid st r).fk_missing ∧
      st.invalid_req ≤ (factStep lk valid st r).invalid_req ∧
      st.invalid_date ≤ (factStep lk valid st r).invalid_date ∧
      st.qty_zero ≤ (factStep lk valid st r).qty_zero) := by
  constructor
  · unfold stage_fact_reload
    rw [factRun_partition]
    simp [bucketSum]
  · exact fun lk valid st r => factStep_partition lk valid st r

/-! ## Fact Reloader validation order (C3) -/

/-- C3 counterexample — a staged fact row whose required fields are all
non-null and whose quantity equals 0 is counted under `invalid_req` (the
Python `all([...])` truthiness check rejects a zero quantity), not under
`qty_zero` as the claim states. -/
theorem C3_counterexample :
    (stage_fact_reload [("cc", 1)] [("i1", 1)]
      [{ sk := 1, nk := "a@x.com", displayName := none, phone := none, notes := none,
         validFrom := 0, validTo := none, isCurrent := true, hashDiff := none }]
      [20240101]
      [{ isbn := some "i1", cust := some "a@x.com", code := some "cc",
         dkey := some 20240101, qty := some 0, price := some 3,
         order := some "o1", ship := some "s1" }]).invalid_req = 1 ∧
    (stage_fact_reload [("cc", 1)] [("i1", 1)]
      [{ sk := 1, nk := "a@x.com", displayName := none, phone := none, notes := none,
         validFrom := 0, validTo := none, isCurrent := true, hashDiff := none }]
      [20240101]
      [{ isbn := some "i1", cust := some "a@x.com", code := some "cc",
         dkey := some 20240101, qty := some 0, price := some 3,
         order := some "o1", ship := some "s1" }]).qty_zero = 0 := by
  exact ⟨by decide, by decide⟩

/-- C3 (amended) — Fact Reloader validation order: (a) a row failing the
required-field truthiness check (any null/empty field, or a zero date key,
quantity or price) is counted as invalid_req — in particular a row whose
quantity equals 0; (b) otherwise a date key absent from the validated
calendar-key set is counted as invalid_date; (c) otherwise a quantity ≤ 0 is
counted as qty_zero, and such a quantity is necessarily strictly negative. -/
theorem C3_validation_order (lk : Lookups) (valid : List Int) (st : FactState) (r : FactRow) :
    ((truthyStr (to_str r.isbn) && truthyStr (to_str r.cust) && truthyStr (to_str r.code) &&
      truthyInt r.dkey && truthyRat r.qty && truthyRat r.price &&
      truthyStr (to_str r.order) && truthyStr (to_str r.ship)) = false →
      factStep lk valid st r = { st with invalid_req := st.invalid_req + 1 }) ∧
    (r.qty = some 0 →
      factStep lk valid st r = { st with invalid_req := st.invalid_req + 1 }) ∧
    ((truthyStr (to_str r.isbn) && truthyStr (to_str r.cust) && truthyStr (to_str r.code) &&
      truthyInt r.dkey && truthyRat r.qty && truthyRat r.price &&
      truthyStr (to_str r.order) && truthyStr (to_str r.ship)) = true →
      ∀ d, r.dkey = some d → valid.contains d = false →
      factStep lk valid st r = { st with invalid_date := st.invalid_date + 1 }) ∧
    ((truthyStr (to_str r.isbn) && truthyStr (to_str r.cust) && truthyStr (to_str r.code) &&
      truthyInt r.dkey && truthyRat r.qty && truthyRat r.price &&
      truthyStr (to_str r.order) && truthyStr (to_str r.ship)) = true →
      ∀ d, r.dkey = some d → valid.contains d = true →
      ∀ q, r.qty = some q → q ≤ 0 →
      factStep lk valid st r = { st with qty_zero := st.qty_zero + 1 } ∧ q < 0) := by
  refine ⟨fun hreq => ?_, fun hq => ?_, fun hreq d hd hv => ?_, fun hreq d hd hv q hq hle => ?_⟩
  · simp [factStep, hreq]
  · have hfalse : truthyRat r.qty = false := by rw [hq]; simp [truthyRat]
    simp [factStep, hfalse]
  · simp only [Bool.and_eq_true] at hreq
    obtain ⟨⟨⟨⟨⟨⟨⟨h1, h2⟩, h3⟩, h4⟩, h5⟩, h6⟩, h7⟩, h8⟩ := hreq
    have hv2 : d ∉ valid := by simpa using hv
    rw [hd] at h4
    simp [factStep, h1, h2, h3, h4, h5, h6, h7, h8, hd, hv2]
  · simp only [Bool.and_eq_true] at hreq
    obtain ⟨⟨⟨⟨⟨⟨⟨h1, h2⟩, h3⟩, h4⟩, h5⟩, h6⟩, h7⟩, h8⟩ := hreq
    rw [hq] at h5
    have hqne : ¬(q = 0) := by simpa [truthyRat] using h5
    have hv2 : d ∈ valid := by simpa using hv
    rw [hd] at h4
    refine ⟨?_, lt_of_le_of_ne hle hqne⟩
    simp [factStep, h1, h2, h3, h4, h5, h6, h7, h8, hd, hv2, hq, hle]

/-- C3 witness: the amended validation-order theorem applied at two concrete
rows, one with quantity 0 (lands in invalid_req) and one with quantity -1
(lands in qty_zero) -/
theorem C3_validation_order_witness :
    factStep { pm := [], bk := [], cu := [] } []
      { factTable := [], inserted := 0, fk_missing := 0, invalid_req := 0, invalid_date := 0,
        qty_zero := 0, missPm := 0, missBk := 0, missCu := 0 }
      { isbn := some "i", cust := some "c", code := some "p", dkey := some 1,
        qty := some 0, price := some 1, order := some "o", ship := some "s" } =
      { factTable := [], inserted := 0, fk_missing := 0, invalid_req := 0 + 1, invalid_date := 0,
        qty_zero := 0, missPm := 0, missBk := 0, missCu := 0 } ∧
    (factStep { pm := [], bk := [], cu := [] } [1]
      { factTable := [], inserted := 0, fk_missing := 0, invalid_req := 0, invalid_date := 0,
        qty_zero := 0, missPm := 0, missBk := 0, missCu := 0 }
      { isbn := some "i", cust := some "c", code := some "p", dkey := some 1,
        qty := some (-1), price := some 1, order := some "o", ship := some "s" } =
      { factTable := [], inserted := 0, fk_missing := 0, invalid_req := 0, invalid_date := 0,
        qty_zero := 0 + 1, missPm := 0, missBk := 0, missCu := 0 } ∧ (-1 : ℚ) < 0) :=
  ⟨(C3_validation_order { pm := [], bk := [], cu := [] } []
      { factTable := [], inserted := 0, fk_missing := 0, invalid_req := 0, invalid_date := 0,
        qty_zero := 0, missPm := 0, missBk := 0, missCu := 0 }
      { isbn := some "i", cust := some "c", code := some "p", dkey := some 1,
        qty := some 0, price := some 1, order := some "o", ship := some "s" }).2.1 rfl,
   (C3_validation_order { pm := [], bk := [], cu := [] } [1]
      { factTable := [], inserted := 0, fk_missing := 0, invalid_req := 0, invalid_date := 0,
        qty_zero := 0, missPm := 0, missBk := 0, missCu := 0 }
      { isbn := some "i", cust := some "c", code := some "p", dkey := some 1,
        qty := some (-1), price := some 1, order := some "o", ship := some "s" }).2.2.2
      (by decide) 1 rfl (by decide) (-1) rfl (by decide)⟩

/-! ## Overwrite Loader coalesce law (C1) -/

/-- C1 counterexample — a staged book row with a null Language, PublishYear
and Pages against a stored row holding non-null values for all three: the
update nulls the three stored attributes (no coalesce there), while the null
Title and ListPrice do leave the stored values in place. -/
theorem C1_counterexample :
    ((stage_book_upsert_type1 7
      [{ isbn := "i1", title := "T", language := some "en", publishYear := some 1999,
         pages := some 100, listPrice := 5, updatedAt := 0 }]
      [{ isbn := some "i1", title := none, language := none, publishYear := none,
         pages := none, listPrice := none }]).table.map StoredBook.language) = [none] ∧
    ((stage_book_upsert_type1 7
      [{ isbn := "i1", title := "T", language := some "en", publishYear := some 1999,
         pages := some 100, listPrice := 5, updatedAt := 0 }]
      [{ isbn := some "i1", title := none, language := none, publishYear := none,
         pages := none, listPrice := none }]).table.map StoredBook.publishYear) = [none] ∧
    ((stage_book_upsert_type1 7
      [{ isbn := "i1", title := "T", language := some "en", publishYear := some 1999,
         pages := some 100, listPrice := 5, updatedAt := 0 }]
      [{ isbn := some "i1", title := none, language := none, publishYear := none,
         pages := none, listPrice := none }]).table.map StoredBook.pages) = [none] ∧
    ((stage_book_upsert_type1 7
      [{ isbn := "i1", title := "T", language := some "en", publishYear := some 1999,
         pages := some 100, listPrice := 5, updatedAt := 0 }]
      [{ isbn := some "i1", title := none, language := none, publishYear := none,
         pages := none, listPrice := none }]).table.map StoredBook.title) = ["T"] ∧
    ((stage_book_upsert_type1 7
      [{ isbn := "i1", title := "T", language := some "en", publishYear := some 1999,
         pages := some 100, listPrice := 5, updatedAt := 0 }]
      [{ isbn := some "i1", title := none, language := none, publishYear := none,
         pages := none, listPrice := none }]).table.map StoredBook.listPrice) = [5] := by
  refine ⟨by decide, by decide, by decide, by decide, by decide⟩

/-- C1 (amended) — Overwrite Loader coalesce law: for every staged row whose
natural key matches a stored row, the matching row is replaced by the
updated row, the updated counter rises; the update applies coalesce
semantics to Title and ListPrice only (null leaves the stored value,
non-null replaces it), while Language, PublishYear and Pages are always
replaced by the staged value, null or not. -/
theorem C1_book_coalesce (now : Nat) (st : BookState) (r : BookRow) (isbn : String)
    (b : StoredBook) (hisbn : to_str r.isbn = some isbn) (hb : b ∈ st.table)
    (hkey : b.isbn = isbn) :
    (bookApplyUpdate now (to_str r.title) (to_str r.language) r.publishYear r.pages
      r.listPrice b ∈ (bookStep now st r).table ∧
    (bookStep now st r).updated = st.updated + 1 ∧
    (bookStep now st r).inserted = st.inserted) ∧
    (∀ title language publishYear pages listPrice c,
      (title = none →
        (bookApplyUpdate now title language publishYear pages listPrice c).title = c.title) ∧
      (∀ t, title = some t →
        (bookApplyUpdate now title language publishYear pages listPrice c).title = t) ∧
      (listPrice = none →
        (bookApplyUpdate now title language publishYear pages listPrice c).listPrice =
          c.listPrice) ∧
      (∀ p, listPrice = some p →
        (bookApplyUpdate now title language publishYear pages listPrice c).listPrice = p) ∧
      (bookApplyUpdate now title language publishYear pages listPrice c).language = language ∧
      (bookApplyUpdate now title language publishYear pages listPrice c).publishYear =
        publishYear ∧
      (bookApplyUpdate now title language publishYear pages listPrice c).pages = pages) := by
  have hany : st.table.any (fun c => c.isbn == isbn) = true :=
    List.any_eq_true.mpr ⟨b, hb, by simp [hkey]⟩
  constructor
  · unfold bookStep
    rw [hisbn]
    dsimp only
    rw [if_pos hany]
    refine ⟨?_, rfl, rfl⟩
    exact List.mem_map.mpr ⟨b, hb, by rw [if_pos hkey]⟩
  · intro title language publishYear pages listPrice c
    refine ⟨fun ht => ?_, fun t ht => ?_, fun hp => ?_, fun p hp => ?_, rfl, rfl, rfl⟩
    · simp [bookApplyUpdate, ht]
    · simp [bookApplyUpdate, ht]
    · simp [bookApplyUpdate, hp]
    · simp [bookApplyUpdate, hp]

/-- C1 witness: the amended coalesce law applied at a concrete matching row
with a non-null staged title and a null staged language -/
theorem C1_book_coalesce_witness :
    bookApplyUpdate 7 (to_str (some " T2 ")) (to_str none) (some 2000) none (some 9)
      { isbn := "i1", title := "T", language := some "en", publishYear := some 1999,
        pages := some 100, listPrice := 5, updatedAt := 0 } ∈
      (bookStep 7
        { table := [{ isbn := "i1", title := "T", language := some "en",
                      publishYear := some 1999, pages := some 100, listPrice := 5,
                      updatedAt := 0 }], updated := 0, inserted := 0 }
        { isbn := some "i1", title := some " T2 ", language := none,
          publishYear := some 2000, pages := none, listPrice := some 9 }).table :=
  (C1_book_coalesce 7
    { table := [{ isbn := "i1", title := "T", language := some "en",
                  publishYear := some 1999, pages := some 100, listPrice := 5,
                  updatedAt := 0 }], updated := 0, inserted := 0 }
    { isbn := some "i1", title := some " T2 ", language := none,
      publishYear := some 2000, pages := none, listPrice := some 9 }
    "i1"
    { isbn := "i1", title := "T", language := some "en", publishYear := some 1999,
      pages := some 100, listPrice := 5, updatedAt := 0 }
    (by decide) (by decide) rfl).1.1

/-! ## Overwrite Loader skip accounting (C10) -/

/-- a staged book row with a null/empty natural key is a no-op -/
theorem bookStep_nullkey (now : Nat) (st : BookState) (r : BookRow)
    (h : to_str r.isbn = none) : bookStep now st r = st := by
  unfold bookStep
  rw [h]

/-- a staged book row matching no stored row and lacking a title is a no-op -/
theorem bookStep_nomatch (now : Nat) (st : BookState) (r : BookRow) (isbn : String)
    (hisbn : to_str r.isbn = some isbn)
    (hmatch : st.table.any (fun b => b.isbn == isbn) = false)
    (htitle : to_str r.title = none) : bookStep now st r = st := by
  unfold bookStep
  rw [hisbn]
  dsimp only
  rw [htitle, if_neg (by rw [hmatch]; exact Bool.false_ne_true)]

/-- each loop iteration raises updated + inserted by one exactly when it
changes the state -/
theorem bookStep_account (now : Nat) (st : BookState) (r : BookRow) :
    (bookStep now st r).updated + (bookStep now st r).inserted +
      (if bookStep now st r = st then 1 else 0) = st.updated + st.inserted + 1 := by
  cases hisbn : to_str r.isbn with
  | none => rw [bookStep_nullkey now st r hisbn, if_pos rfl]
  | some isbn =>
    by_cases hmatch : st.table.any (fun b => b.isbn == isbn) = true
    · have hstep : bookStep now st r =
          { st with
            table := st.table.map (fun b =>
              if b.isbn = isbn then
                bookApplyUpdate now (to_str r.title) (to_str r.language)
                  r.publishYear r.pages r.listPrice b
              else b)
            updated := st.updated + 1 } := by
        unfold bookStep
        rw [hisbn]
        dsimp only
        rw [if_pos hmatch]
      rw [hstep]
      have hne : ({ st with
          table := st.table.map (fun b =>
            if b.isbn = isbn then
              bookApplyUpdate now (to_str r.title) (to_str r.language)
                r.publishYear r.pages r.listPrice b
            else b)
          updated := st.updated + 1 } : BookState) ≠ st := by
        intro heq
        have := congrArg BookState.updated heq
        simp at this
      rw [if_neg hne]
      dsimp only
      omega
    · have hmatch2 : st.table.any (fun b => b.isbn == isbn) = false :=
        Bool.eq_false_iff.mpr hmatch
      cases htitle : to_str r.title with
      | none => rw [bookStep_nomatch now st r isbn hisbn hmatch2 htitle, if_pos rfl]
      | some t =>
        have hstep : bookStep now st r =
            { st with
              table := st.table ++
                [{ isbn := isbn, title := t, language := to_str r.language,
                   publishYear := r.publishYear, pages := r.pages,
                   listPrice := r.listPrice.getD 0, updatedAt := now }]
              inserted := st.inserted + 1 } := by
          unfold bookStep
          rw [hisbn]
          dsimp only
          rw [if_neg (by rw [hmatch2]; exact Bool.false_ne_true), htitle]
        rw [hstep]
        have hne : ({ st with
            table := st.table ++
              [{ isbn := isbn, title := t, language := to_str r.language,
                 publishYear := r.publishYear, pages := r.pages,
                 listPrice := r.listPrice.getD 0, updatedAt := now }]
            inserted := st.inserted + 1 } : BookState) ≠ st := by
          intro heq
          have := congrArg BookState.inserted heq
          simp at this
        rw [if_neg hne]
        dsimp only
        omega

/-- over a whole fold, updated + inserted + the number of no-op rows equals
the number of rows processed -/
theorem bookRun_account (now : Nat) (l : List BookRow) : ∀ st : BookState,
    (l.foldl (bookStep now) st).updated + (l.foldl (bookStep now) st).inserted +
      bookSkipCount now st l = st.updated + st.inserted + l.length := by
  induction l with
  | nil => intro st; simp [bookSkipCount]
  | cons a l ih =>
    intro st
    rw [List.foldl_cons]
    have h1 := ih (bookStep now st a)
    have h2 := bookStep_account now st a
    unfold bookSkipCount
    rw [List.length_cons]
    by_cases hfix : bookStep now st a = st
    · rw [if_pos hfix] at h2 ⊢
      omega
    · rw [if_neg hfix] at h2 ⊢
      omega

/-- C10 — Overwrite Loader skip accounting: a staged row with a null/empty
natural key, or matching no stored row while lacking a title, performs no
insert and no update; over a run, updated + inserted + the number of no-op
rows (which the printed unchanged = read - updated - inserted figure
reports, there being no separate rejected counter) equals the rows read. -/
theorem C10_book_skip_accounting (now : Nat) (table : List StoredBook)
    (staged : List BookRow) :
    (∀ (st : BookState) (r : BookRow), to_str r.isbn = none → bookStep now st r = st) ∧
    (∀ (st : BookState) (r : BookRow) (isbn : String), to_str r.isbn = some isbn →
      st.table.any (fun b => b.isbn == isbn) = false → to_str r.title = none →
      bookStep now st r = st) ∧
    (stage_book_upsert_type1 now table staged).updated +
      (stage_book_upsert_type1 now table staged).inserted +
      bookSkipCount now { table := table, updated := 0, inserted := 0 } staged =
      staged.length := by
  refine ⟨fun st r h => bookStep_nullkey now st r h,
    fun st r isbn h1 h2 h3 => bookStep_nomatch now st r isbn h1 h2 h3, ?_⟩
  have h := bookRun_account now staged { table := table, updated := 0, inserted := 0 }
  dsimp only at h
  unfold stage_book_upsert_type1
  omega

/-- C10 witness: the no-op characterizations applied at a concrete row with
a null natural key -/
theorem C10_book_skip_accounting_witness :
    bookStep 0 { table := [], updated := 0, inserted := 0 }
      { isbn := none, title := none, language := none, publishYear := none,
        pages := none, listPrice := none } =
      { table := [], updated := 0, inserted := 0 } :=
  (C10_book_skip_accounting 0 [] []).1
    { table := [], updated := 0, inserted := 0 }
    { isbn := none, title := none, language := none, publishYear := none,
      pages := none, listPrice := none } rfl

/-! ## Fixed-Attribute Loader key normalization (C8) -/

/-- C8 counterexample — two staged codes that differ only in internal
whitespace (equal under the spec normalization that collapses whitespace)
are both inserted: the loader does not collapse internal whitespace. -/
theorem C8_counterexample :
    specNormalizeKey "pay pal" = specNormalizeKey "pay  pal" ∧
    (stage_paymentmethod_insert_only []
      [{ code := some "pay pal", name := some "PayPal" },
       { code := some "pay  pal", name := some "PayPal Dup" }]).inserted = 2 := by
  exact ⟨by decide, by decide⟩

/-- C8 (amended) — Fixed-Attribute Loader key normalization: the loader
normalizes the natural key by trimming (inside `to_str`) and case-folding
only — no internal-whitespace collapsing — before the case-insensitive
membership check; two staged keys that agree after trim and case-fold are
treated as the same key (the second row never inserts). -/
theorem C8_pm_normalization (st : PMState) (r1 r2 : PMRow) (c1 c2 n1 n2 : String)
    (hc1 : to_str r1.code = some c1) (hn1 : to_str r1.name = some n1)
    (hc2 : to_str r2.code = some c2) (hn2 : to_str r2.name = some n2) :
    (strLower c1 ∈ st.existing.map strLower → pmStep st r1 = st) ∧
    (strLower c1 ∉ st.existing.map strLower →
      pmStep st r1 = { existing := c1 :: st.existing, table := st.table ++ [(c1, n1)],
                       inserted := st.inserted + 1 }) ∧
    (strLower c1 = strLower c2 → pmStep (pmStep st r1) r2 = pmStep st r1) := by
  refine ⟨fun hm => pmStep_known st r1 c1 n1 hc1 hn1 hm,
    fun hm => pmStep_new st r1 c1 n1 hc1 hn1 hm, fun heq => ?_⟩
  by_cases hm : strLower c1 ∈ st.existing.map strLower
  · rw [pmStep_known st r1 c1 n1 hc1 hn1 hm]
    exact pmStep_known st r2 c2 n2 hc2 hn2 (heq ▸ hm)
  · rw [pmStep_new st r1 c1 n1 hc1 hn1 hm]
    refine pmStep_known _ r2 c2 n2 hc2 hn2 ?_
    rw [← heq]
    exact List.mem_cons_self _ _

/-- C8 witness: two staged codes differing only in case — the second row is
a no-op against the state left by the first -/
theorem C8_pm_normalization_witness :
    pmStep (pmStep { existing := [], table := [], inserted := 0 }
        { code := some "CC", name := some "Credit Card" })
      { code := some "cc", name := some "Credit Card Dup" } =
    pmStep { existing := [], table := [], inserted := 0 }
      { code := some "CC", name := some "Credit Card" } :=
  (C8_pm_normalization { existing := [], table := [], inserted := 0 }
    { code := some "CC", name := some "Credit Card" }
    { code := some "cc", name := some "Credit Card Dup" }
    "CC" "cc" "Credit Card" "Credit Card Dup"
    (by decide) (by decide) (by decide) (by decide)).2.2 (by decide)

/-! ## Versioned Loader lemmas -/

/-- the highest-SK selection returns an element of its input -/
theorem maxBySk_mem : ∀ (l : List StoredCust) (c : StoredCust), maxBySk l = some c → c ∈ l := by
  intro l
  induction l with
  | nil => intro c h; cases h
  | cons a l ih =>
    intro c h
    unfold maxBySk at h
    cases hm : maxBySk l with
    | none =>
      rw [hm] at h
      injection h with h
      exact h ▸ List.mem_cons_self a l
    | some b =>
      rw [hm] at h
      dsimp only at h
      by_cases hlt : a.sk < b.sk
      · rw [if_pos hlt] at h
        injection h with h
        exact List.mem_cons_of_mem a (h ▸ ih b hm)
      · rw [if_neg hlt] at h
        injection h with h
        exact h ▸ List.mem_cons_self a l

/-- the highest-SK selection is none only on the empty list -/
theorem maxBySk_none : ∀ l : List StoredCust, maxBySk l = none → l = [] := by
  intro l h
  cases l with
  | nil => rfl
  | cons a l =>
    unfold maxBySk at h
    cases hm : maxBySk l with
    | none => rw [hm] at h; cases h
    | some b =>
      rw [hm] at h
      dsimp only at h
      by_cases hlt : a.sk < b.sk
      · rw [if_pos hlt] at h; cases h
      · rw [if_neg hlt] at h; cases h

/-- a found current row is a current stored row with the searched key -/
theorem findCurrent_mem (t : List StoredCust) (nk : String) (c : StoredCust)
    (h : findCurrent t nk = some c) : c ∈ t ∧ c.nk = nk ∧ c.isCurrent = true := by
  have hmem := maxBySk_mem _ c h
  have hfil := List.mem_filter.mp hmem
  refine ⟨hfil.1, ?_, ?_⟩
  · have := hfil.2
    simp only [Bool.and_eq_true, beq_iff_eq] at this
    exact this.1
  · have := hfil.2
    simp only [Bool.and_eq_true] at this
    exact this.2

/-- when the current-version SELECT comes back empty, no current row with
the searched key exists -/
theorem findCurrent_none (t : List StoredCust) (nk : String)
    (h : findCurrent t nk = none) : ∀ c ∈ t, c.nk = nk → c.isCurrent = false := by
  intro c hc hnk
  unfold findCurrent at h
  have hfil := maxBySk_none _ h
  have hnot := List.filter_eq_nil_iff.mp hfil c hc
  cases hcur : c.isCurrent with
  | false => rfl
  | true =>
    exfalso
    exact hnot (by simp [hnk, hcur])

/-- C4 — Versioned Loader state machine: with a digest column present, for a
staged row whose key finds a current stored row, an equal digest leads to a
pure unchanged count (no write), and a different digest closes the current
row (ValidTo = now, IsCurrent = false) and appends the new current version
carrying the staged attributes and digest, leaving unrelated rows intact. -/
theorem C4_scd2_state_machine (now : Nat) (st : CustState) (r : CustRow) (nk : String)
    (cur : StoredCust) (hnk : to_str r.nk = some nk)
    (hcur : findCurrent st.table (strLower nk) = some cur) :
    (cur.hashDiff = r.hashDiff →
      custStep true now st r = { st with unchanged := st.unchanged + 1 }) ∧
    (cur.hashDiff ≠ r.hashDiff →
      custStep true now st r =
        { st with
          table := (st.table.map (closeRow now cur.sk)) ++
            [{ sk := st.nextSk, nk := strLower nk, displayName := to_str r.displayName,
               phone := to_str r.phone, notes := to_str r.notes, validFrom := now,
               validTo := none, isCurrent := true, hashDiff := r.hashDiff }]
          nextSk := st.nextSk + 1
          scd2_changed := st.scd2_changed + 1
          closed_old := st.closed_old + 1 } ∧
      ({ cur with validTo := some now, isCurrent := false } : StoredCust) ∈
        (custStep true now st r).table ∧
      (∀ c ∈ st.table, c.sk ≠ cur.sk → c ∈ (custStep true now st r).table)) := by
  constructor
  · intro heq
    unfold custStep
    rw [hnk]
    dsimp only
    rw [hcur]
    simp [heq]
  · intro hne
    have hstep : custStep true now st r =
        { st with
          table := (st.table.map (closeRow now cur.sk)) ++
            [{ sk := st.nextSk, nk := strLower nk, displayName := to_str r.displayName,
               phone := to_str r.phone, notes := to_str r.notes, validFrom := now,
               validTo := none, isCurrent := true, hashDiff := r.hashDiff }]
          nextSk := st.nextSk + 1
          scd2_changed := st.scd2_changed + 1
          closed_old := st.closed_old + 1 } := by
      unfold custStep
      rw [hnk]
      dsimp only
      rw [hcur]
      simp [hne]
    refine ⟨hstep, ?_, ?_⟩
    · rw [hstep]
      dsimp only
      apply List.mem_append_left
      refine List.mem_map.mpr ⟨cur, (findCurrent_mem st.table (strLower nk) cur hcur).1, ?_⟩
      unfold closeRow
      rw [if_pos rfl]
    · intro c hc hsk
      rw [hstep]
      dsimp only
      apply List.mem_append_left
      refine List.mem_map.mpr ⟨c, hc, ?_⟩
      unfold closeRow
      rw [if_neg hsk]

/-- C4 witness: the state machine applied at one concrete current row, first
with an equal digest, then (inside the conclusion) the unchanged count -/
theorem C4_scd2_state_machine_witness :
    custStep true 5
      { table := [{ sk := 1, nk := "a@x.com", displayName := none, phone := none,
                    notes := none, validFrom := 0, validTo := none, isCurrent := true,
                    hashDiff := some [1, 2] }],
        nextSk := 2, inserted_new := 0, scd2_changed := 0, unchanged := 0, closed_old := 0 }
      { nk := some "a@x.com", displayName := none, phone := none, notes := none,
        hashDiff := some [1, 2] } =
      { table := [{ sk := 1, nk := "a@x.com", displayName := none, phone := none,
                    notes := none, validFrom := 0, validTo := none, isCurrent := true,
                    hashDiff := some [1, 2] }],
        nextSk := 2, inserted_new := 0, scd2_changed := 0, unchanged := 0 + 1,
        closed_old := 0 } :=
  (C4_scd2_state_machine 5
    { table := [{ sk := 1, nk := "a@x.com", displayName := none, phone := none,
                  notes := none, validFrom := 0, validTo := none, isCurrent := true,
                  hashDiff := some [1, 2] }],
      nextSk := 2, inserted_new := 0, scd2_changed := 0, unchanged := 0, closed_old := 0 }
    { nk := some "a@x.com", displayName := none, phone := none, notes := none,
      hashDiff := some [1, 2] }
    "a@x.com"
    { sk := 1, nk := "a@x.com", displayName := none, phone := none, notes := none,
      validFrom := 0, validTo := none, isCurrent := true, hashDiff := some [1, 2] }
    (by decide) (by decide)).1 rfl

/-- C9 — Versioned Loader missing-digest policy: without a staged digest
column, a staged row whose key finds a current stored row is counted
unchanged with no write, whatever digest the stored row carries; a row for
a new natural key still inserts a first version (with a null digest). -/
theorem C9_missing_digest (now : Nat) (st : CustState) (r : CustRow) (nk : String)
    (hnk : to_str r.nk = some nk) :
    (∀ cur, findCurrent st.table (strLower nk) = some cur →
      custStep false now st r = { st with unchanged := st.unchanged + 1 }) ∧
    (findCurrent st.table (strLower nk) = none →
      custStep false now st r =
        { st with
          table := st.table ++
            [{ sk := st.nextSk, nk := strLower nk, displayName := to_str r.displayName,
               phone := to_str r.phone, notes := to_str r.notes, validFrom := now,
               validTo := none, isCurrent := true, hashDiff := none }]
          nextSk := st.nextSk + 1
          inserted_new := st.inserted_new + 1 }) := by
  constructor
  · intro cur hcur
    unfold custStep
    rw [hnk]
    dsimp only
    rw [hcur]
    simp
  · intro hnone
    unfold custStep
    rw [hnk]
    dsimp only
    rw [hnone]
    simp

/-- C9 witness: a staged row without a digest column against a current
stored row holding a non-null digest is a pure unchanged count -/
theorem C9_missing_digest_witness :
    custStep false 5
      { table := [{ sk := 1, nk := "a@x.com", displayName := none, phone := none,
                    notes := none, validFrom := 0, validTo := none, isCurrent := true,
                    hashDiff := some [9, 9] }],
        nextSk := 2, inserted_new := 0, scd2_changed := 0, unchanged := 0, closed_old := 0 }
      { nk := some "a@x.com", displayName := some "New Name", phone := none, notes := none,
        hashDiff := none } =
      { table := [{ sk := 1, nk := "a@x.com", displayName := none, phone := none,
                    notes := none, validFrom := 0, validTo := none, isCurrent := true,
                    hashDiff := some [9, 9] }],
        nextSk := 2, inserted_new := 0, scd2_changed := 0, unchanged := 0 + 1,
        closed_old := 0 } :=
  (C9_missing_digest 5
    { table := [{ sk := 1, nk := "a@x.com", displayName := none, phone := none,
                  notes := none, validFrom := 0, validTo := none, isCurrent := true,
                  hashDiff := some [9, 9] }],
      nextSk := 2, inserted_new := 0, scd2_changed := 0, unchanged := 0, closed_old := 0 }
    { nk := some "a@x.com", displayName := some "New Name", phone := none, notes := none,
      hashDiff := none }
    "a@x.com" (by decide)).1
    { sk := 1, nk := "a@x.com", displayName := none, phone := none, notes := none,
      validFrom := 0, validTo := none, isCurrent := true, hashDiff := some [9, 9] }
    (by decide)

/-! ## Fact Reloader referential integrity (C6) -/

/-- a successful association-list lookup exhibits a pair of the list -/
theorem lookup_mem {A B : Type} [BEq A] [LawfulBEq A] :
    ∀ (l : List (A × B)) (a : A) (b : B), l.lookup a = some b → ∃ p ∈ l, p.2 = b := by
  intro l
  induction l with
  | nil => intro a b h; cases h
  | cons p l ih =>
    intro a b h
    unfold List.lookup at h
    cases heq : (a == p.1) with
    | true =>
      rw [heq] at h
      dsimp only at h
      injection h with h
      exact ⟨p, List.mem_cons_self p l, h⟩
    | false =>
      rw [heq] at h
      dsimp only at h
      obtain ⟨q, hq, hb⟩ := ih a b h
      exact ⟨q, List.mem_cons_of_mem p hq, hb⟩

/-- one Fact Reloader iteration only ever adds referentially sound rows -/
theorem factStep_integrity (pmRows bkRows : List (String × Nat))
    (custTable : List StoredCust) (dimDate : List Int) (keys : List Int)
    (st : FactState) (r : FactRow)
    (hP : ∀ f ∈ st.factTable, GoodFact pmRows bkRows custTable dimDate f) :
    ∀ f ∈ (factStep (stage_build_lookups pmRows bkRows custTable)
      (fetch_valid_dates_for dimDate keys) st r).factTable,
      GoodFact pmRows bkRows custTable dimDate f := by
  intro f hf
  unfold factStep at hf
  dsimp only at hf
  cases hA : (truthyStr (to_str r.isbn) && truthyStr (to_str r.cust) &&
      truthyStr (to_str r.code) && truthyInt r.dkey && truthyRat r.qty &&
      truthyRat r.price && truthyStr (to_str r.order) && truthyStr (to_str r.ship)) with
  | false =>
    rw [if_pos (by rw [hA]; rfl)] at hf
    exact hP f hf
  | true =>
    rw [if_neg (by rw [hA]; simp)] at hf
    simp only [Bool.and_eq_true] at hA
    obtain ⟨⟨⟨⟨⟨⟨⟨t1, t2⟩, t3⟩, t4⟩, t5⟩, t6⟩, t7⟩, t8⟩ := hA
    cases hd : r.dkey with
    | none => rw [hd] at t4; simp [truthyInt] at t4
    | some d =>
      rw [hd] at hf
      dsimp only at hf
      cases hvd : ((fetch_valid_dates_for dimDate keys).contains d) with
      | false => rw [if_pos (by rw [hvd]; rfl)] at hf; exact hP f hf
      | true =>
        rw [if_neg (by rw [hvd]; simp)] at hf
        cases hq : r.qty with
        | none => rw [hq] at t5; simp [truthyRat] at t5
        | some q =>
          rw [hq] at hf
          dsimp only at hf
          by_cases hle : (decide (q ≤ 0)) = true
          · rw [if_pos hle] at hf; exact hP f hf
          · rw [if_neg hle] at hf
            cases hisbn : to_str r.isbn with
            | none => rw [hisbn] at t1; simp [truthyStr] at t1
            | some sIsbn =>
              cases hcust : to_str r.cust with
              | none => rw [hcust] at t2; simp [truthyStr] at t2
              | some sCust =>
                cases hcode : to_str r.code with
                | none => rw [hcode] at t3; simp [truthyStr] at t3
                | some sCode =>
                  rw [hisbn, hcust, hcode] at hf
                  dsimp only at hf
                  cases hbk : ((stage_build_lookups pmRows bkRows custTable).bk.lookup
                      (strLower sIsbn)) with
                  | none =>
                    rw [hbk] at hf
                    rw [if_pos (by simp [truthyNat])] at hf
                    exact hP f hf
                  | some vbk =>
                    rw [hbk] at hf
                    cases hcu : ((stage_build_lookups pmRows bkRows custTable).cu.lookup
                        (strLower sCust)) with
                    | none =>
                      rw [hcu] at hf
                      rw [if_pos (by simp [truthyNat])] at hf
                      exact hP f hf
                    | some vcu =>
                      rw [hcu] at hf
                      cases hpm : ((stage_build_lookups pmRows bkRows custTable).pm.lookup
                          (strLower sCode)) with
                      | none =>
                        rw [hpm] at hf
                        rw [if_pos (by simp [truthyNat])] at hf
                        exact hP f hf
                      | some vpm =>
                        rw [hpm] at hf
                        cases hfk : (truthyNat (some vbk) && truthyNat (some vcu) &&
                            truthyNat (some vpm)) with
                        | false =>
                          rw [if_pos (by rw [hfk]; rfl)] at hf
                          exact hP f hf
                        | true =>
                          rw [if_neg (by rw [hfk]; simp)] at hf
                          dsimp only at hf
                          rcases List.mem_append.mp hf with h | h
                          · exact hP f h
                          · have hfr := List.mem_singleton.mp h
                            subst hfr
                            refine ⟨?_, ?_, ?_, ?_⟩
                            · obtain ⟨p, hp, hp2⟩ := lookup_mem _ _ _ hpm
                              unfold stage_build_lookups at hp
                              dsimp only at hp
                              obtain ⟨q, hq2, hqe⟩ := List.mem_map.mp hp
                              refine ⟨q, hq2, ?_⟩
                              have : p.2 = q.2 := by rw [← hqe]
                              dsimp only
                              rw [← this, hp2]
                              rfl
                            · obtain ⟨p, hp, hp2⟩ := lookup_mem _ _ _ hbk
                              unfold stage_build_lookups at hp
                              dsimp only at hp
                              obtain ⟨q, hq2, hqe⟩ := List.mem_map.mp hp
                              refine ⟨q, hq2, ?_⟩
                              have : p.2 = q.2 := by rw [← hqe]
                              dsimp only
                              rw [← this, hp2]
                              rfl
                            · obtain ⟨p, hp, hp2⟩ := lookup_mem _ _ _ hcu
                              unfold stage_build_lookups at hp
                              dsimp only at hp
                              obtain ⟨q, hq2, hqe⟩ := List.mem_map.mp hp
                              have hqfil := List.mem_filter.mp hq2
                              refine ⟨q, hqfil.1, hqfil.2, ?_⟩
                              have hsk : p.2 = q.sk := by rw [← hqe]
                              dsimp only
                              rw [← hsk, hp2]
                              rfl
                            · unfold fetch_valid_dates_for at hvd
                              cases hkeys : keys.isEmpty with
                              | true => rw [hkeys] at hvd; simp at hvd
                              | false =>
                                rw [hkeys] at hvd
                                rw [if_neg Bool.false_ne_true] at hvd
                                have hmem := (contains_iff_mem _ _).mp hvd
                                exact (List.mem_filter.mp hmem).1

/-- C6 — Fact Reloader referential integrity: every row inserted by the
fact reload carries surrogate keys present in the respective dimension
tables (the customer key resolving only through rows with IsCurrent = true)
and a date key present in the calendar dimension. -/
theorem C6_fact_referential_integrity (pmRows bkRows : List (String × Nat))
    (custTable : List StoredCust) (dimDate : List Int) (staged : List FactRow) :
    ∀ f ∈ (stage_fact_reload pmRows bkRows custTable dimDate staged).factTable,
      GoodFact pmRows bkRows custTable dimDate f := by
  unfold stage_fact_reload
  generalize (staged.filterMap FactRow.dkey).eraseDups = keys
  have hgen : ∀ (l : List FactRow) (st : FactState),
      (∀ f ∈ st.factTable, GoodFact pmRows bkRows custTable dimDate f) →
      ∀ f ∈ (l.foldl (factStep (stage_build_lookups pmRows bkRows custTable)
        (fetch_valid_dates_for dimDate keys)) st).factTable,
      GoodFact pmRows bkRows custTable dimDate f := by
    intro l
    induction l with
    | nil => intro st h; exact h
    | cons a l ih =>
      intro st h
      exact ih _ (factStep_integrity pmRows bkRows custTable dimDate keys st a h)
  exact hgen staged _ (by intro f hf; cases hf)

/-- C6 witness: one concrete staged row inserted against one-row dimensions
is referentially sound -/
theorem C6_fact_referential_integrity_witness :
    GoodFact [("cc", 7)] [("i1", 3)]
      [{ sk := 4, nk := "a@x.com", displayName := none, phone := none, notes := none,
         validFrom := 0, validTo := none, isCurrent := true, hashDiff := none }]
      [20240101]
      { bookSK := 3, customerSK := 4, pmSK := 7, dateSK := 20240101, quantity := 2,
        unitPrice := 5, orderNumber := "o1", shippingAddress := "s1" } :=
  C6_fact_referential_integrity [("cc", 7)] [("i1", 3)]
    [{ sk := 4, nk := "a@x.com", displayName := none, phone := none, notes := none,
       validFrom := 0, validTo := none, isCurrent := true, hashDiff := none }]
    [20240101]
    [{ isbn := some "i1", cust := some "a@x.com", code := some "cc",
       dkey := some 20240101, qty := some 2, price := some 5,
       order := some "o1", ship := some "s1" }]
    { bookSK := 3, customerSK := 4, pmSK := 7, dateSK := 20240101, quantity := 2,
      unitPrice := 5, orderNumber := "o1", shippingAddress := "s1" }
    (by decide)

/-! ## Versioned Loader history law (C5) -/

/-- a staged customer row without a usable natural key is a no-op -/
theorem custStep_skip (hc : Bool) (now : Nat) (st : CustState) (r : CustRow)
    (h : to_str r.nk = none) : custStep hc now st r = st := by
  unfold custStep
  rw [h]

/-- characterization of the first-version branch -/
theorem custStep_first (hc : Bool) (now : Nat) (st : CustState) (r : CustRow) (nk : String)
    (hnk : to_str r.nk = some nk)
    (hnone : findCurrent st.table (strLower nk) = none) :
    custStep hc now st r =
      { st with
        table := st.table ++
          [{ sk := st.nextSk, nk := strLower nk, displayName := to_str r.displayName,
             phone := to_str r.phone, notes := to_str r.notes, validFrom := now,
             validTo := none, isCurrent := true,
             hashDiff := if hc = true then r.hashDiff else none }]
        nextSk := st.nextSk + 1
        inserted_new := st.inserted_new + 1 } := by
  unfold custStep
  rw [hnk]
  dsimp only
  rw [hnone]

/-- characterization of the unchanged branch -/
theorem custStep_unchanged (hc : Bool) (now : Nat) (st : CustState) (r : CustRow)
    (nk : String) (cur : StoredCust) (hnk : to_str r.nk = some nk)
    (hcur : findCurrent st.table (strLower nk) = some cur)
    (hEq : (if hc = true then cur.hashDiff == (if hc = true then r.hashDiff else none)
      else true) = true) :
    custStep hc now st r = { st with unchanged := st.unchanged + 1 } := by
  unfold custStep
  rw [hnk]
  dsimp only
  rw [hcur]
  dsimp only
  rw [if_pos hEq]

/-- characterization of the close-and-insert branch -/
theorem custStep_changed (hc : Bool) (now : Nat) (st : CustState) (r : CustRow)
    (nk : String) (cur : StoredCust) (hnk : to_str r.nk = some nk)
    (hcur : findCurrent st.table (strLower nk) = some cur)
    (hEq : (if hc = true then cur.hashDiff == (if hc = true then r.hashDiff else none)
      else true) = false) :
    custStep hc now st r =
      { st with
        table := (st.table.map (closeRow now cur.sk)) ++
          [{ sk := st.nextSk, nk := strLower nk, displayName := to_str r.displayName,
             phone := to_str r.phone, notes := to_str r.notes, validFrom := now,
             validTo := none, isCurrent := true,
             hashDiff := if hc = true then r.hashDiff else none }]
        nextSk := st.nextSk + 1
        scd2_changed := st.scd2_changed + 1
        closed_old := st.closed_old + 1 } := by
  unfold custStep
  rw [hnk]
  dsimp only
  rw [hcur]
  dsimp only
  rw [if_neg (by rw [hEq]; exact Bool.false_ne_true)]

/-- closing a row never changes its surrogate key -/
theorem closeRow_sk (now k : Nat) (c : StoredCust) : (closeRow now k c).sk = c.sk := by
  unfold closeRow
  split <;> rfl

/-- closing a row never changes its natural key -/
theorem closeRow_nk (now k : Nat) (c : StoredCust) : (closeRow now k c).nk = c.nk := by
  unfold closeRow
  split <;> rfl

/-- the close UPDATE leaves rows with another surrogate key untouched -/
theorem closeRow_of_ne (now k : Nat) (c : StoredCust) (h : c.sk ≠ k) :
    closeRow now k c = c := by
  unfold closeRow
  rw [if_neg h]

/-- the close UPDATE on the selected row sets ValidTo and clears IsCurrent -/
theorem closeRow_of_eq (now k : Nat) (c : StoredCust) (h : c.sk = k) :
    closeRow now k c = { c with validTo := some now, isCurrent := false } := by
  unfold closeRow
  rw [if_pos h]

/-- distinct surrogate keys identify rows under the Nodup invariant -/
theorem skInj (t : List StoredCust) (h : SkNodup t) :
    ∀ c1 ∈ t, ∀ c2 ∈ t, c1.sk = c2.sk → c1 = c2 :=
  fun _ h1 _ h2 he => List.inj_on_of_nodup_map h h1 h2 he

/-- a still-current image under the close UPDATE was already current, kept
its identity, and does not carry the closed surrogate key -/
theorem closeRow_current (now k : Nat) (c : StoredCust)
    (h : (closeRow now k c).isCurrent = true) :
    closeRow now k c = c ∧ c.isCurrent = true ∧ c.sk ≠ k := by
  by_cases hsk : c.sk = k
  · rw [closeRow_of_eq now k c hsk] at h
    cases h
  · rw [closeRow_of_ne now k c hsk] at h ⊢
    exact ⟨rfl, h, hsk⟩

/-- one Versioned Loader iteration preserves the dimension invariant -/
theorem custStep_WF (hc : Bool) (now : Nat) (st : CustState) (r : CustRow)
    (hwf : CustWF st.table st.nextSk) :
    CustWF (custStep hc now st r).table (custStep hc now st r).nextSk := by
  obtain ⟨hbound, hnodup, hvt, hone⟩ := hwf
  cases hnk : to_str r.nk with
  | none =>
    rw [custStep_skip hc now st r hnk]
    exact ⟨hbound, hnodup, hvt, hone⟩
  | some nk =>
    cases hfc : findCurrent st.table (strLower nk) with
    | none =>
      rw [custStep_first hc now st r nk hnk hfc]
      dsimp only
      refine ⟨?_, ?_, ?_, ?_⟩
      · intro c hcm
        rcases List.mem_append.mp hcm with h | h
        · exact Nat.lt_succ_of_lt (hbound c h)
        · rw [List.mem_singleton.mp h]
          exact Nat.lt_succ_self _
      · unfold SkNodup
        rw [List.map_append]
        rw [List.nodup_append]
        refine ⟨hnodup, by simp, ?_⟩
        intro a ha hb
        simp only [List.map_cons, List.map_nil, List.mem_singleton] at hb
        obtain ⟨c, hcm, hce⟩ := List.mem_map.mp ha
        rw [hb] at hce
        exact absurd hce (Nat.ne_of_lt (hbound c hcm))
      · intro c hcm
        rcases List.mem_append.mp hcm with h | h
        · exact hvt c h
        · rw [List.mem_singleton.mp h]
          simp
      · intro c1 h1 c2 h2 hcur1 hcur2 hnkeq
        rcases List.mem_append.mp h1 with h1 | h1 <;> rcases List.mem_append.mp h2 with h2 | h2
        · exact hone c1 h1 c2 h2 hcur1 hcur2 hnkeq
        · exfalso
          rw [List.mem_singleton.mp h2] at hnkeq
          have hfalse := findCurrent_none st.table (strLower nk) hfc c1 h1 (by simpa using hnkeq)
          rw [hfalse] at hcur1
          cases hcur1
        · exfalso
          rw [List.mem_singleton.mp h1] at hnkeq
          have hfalse := findCurrent_none st.table (strLower nk) hfc c2 h2 (by simpa using hnkeq.symm)
          rw [hfalse] at hcur2
          cases hcur2
        · rw [List.mem_singleton.mp h1, List.mem_singleton.mp h2]
    | some cur =>
      obtain ⟨hcm, hcnk, hccur⟩ := findCurrent_mem st.table (strLower nk) cur hfc
      cases hEq : (if hc = true then cur.hashDiff == (if hc = true then r.hashDiff else none)
          else true) with
      | true =>
        rw [custStep_unchanged hc now st r nk cur hnk hfc hEq]
        exact ⟨hbound, hnodup, hvt, hone⟩
      | false =>
        rw [custStep_changed hc now st r nk cur hnk hfc hEq]
        dsimp only
        have hskmap : (st.table.map (closeRow now cur.sk)).map StoredCust.sk =
            st.table.map StoredCust.sk := by
          rw [List.map_map]
          exact List.map_congr_left (fun c _ => closeRow_sk now cur.sk c)
        refine ⟨?_, ?_, ?_, ?_⟩
        · intro c hcm2
          rcases List.mem_append.mp hcm2 with h | h
          · obtain ⟨c0, hc0, hce⟩ := List.mem_map.mp h
            rw [← hce, closeRow_sk]
            exact Nat.lt_succ_of_lt (hbound c0 hc0)
          · rw [List.mem_singleton.mp h]
            exact Nat.lt_succ_self _
        · unfold SkNodup
          rw [List.map_append, hskmap, List.nodup_append]
          refine ⟨hnodup, by simp, ?_⟩
          intro a ha hb
          simp only [List.map_cons, List.map_nil, List.mem_singleton] at hb
          obtain ⟨c, hcm2, hce⟩ := List.mem_map.mp ha
          rw [hb] at hce
          exact absurd hce (Nat.ne_of_lt (hbound c hcm2))
        · intro c hcm2
          rcases List.mem_append.mp hcm2 with h | h
          · obtain ⟨c0, hc0, hce⟩ := List.mem_map.mp h
            by_cases hsk : c0.sk = cur.sk
            · rw [← hce, closeRow_of_eq now cur.sk c0 hsk]
              simp
            · rw [← hce, closeRow_of_ne now cur.sk c0 hsk]
              exact hvt c0 hc0
          · rw [List.mem_singleton.mp h]
            simp
        · intro c1 h1 c2 h2 hcur1 hcur2 hnkeq
          rcases List.mem_append.mp h1 with h1 | h1 <;> rcases List.mem_append.mp h2 with h2 | h2
          · obtain ⟨c01, hc01, hce1⟩ := List.mem_map.mp h1
            obtain ⟨c02, hc02, hce2⟩ := List.mem_map.mp h2
            rw [← hce1] at hcur1 hnkeq ⊢
            rw [← hce2] at hcur2 hnkeq ⊢
            obtain ⟨he1, hcur01, _⟩ := closeRow_current now cur.sk c01 hcur1
            obtain ⟨he2, hcur02, _⟩ := closeRow_current now cur.sk c02 hcur2
            rw [he1, he2] at hnkeq ⊢
            exact hone c01 hc01 c02 hc02 hcur01 hcur02 hnkeq
          · exfalso
            obtain ⟨c01, hc01, hce1⟩ := List.mem_map.mp h1
            rw [← hce1] at hcur1 hnkeq
            obtain ⟨he1, hcur01, hne1⟩ := closeRow_current now cur.sk c01 hcur1
            rw [he1] at hnkeq
            rw [List.mem_singleton.mp h2] at hnkeq
            have : c01 = cur := hone c01 hc01 cur hcm hcur01 hccur (by simpa [hcnk] using hnkeq)
            exact hne1 (by rw [this])
          · exfalso
            obtain ⟨c02, hc02, hce2⟩ := List.mem_map.mp h2
            rw [← hce2] at hcur2 hnkeq
            obtain ⟨he2, hcur02, hne2⟩ := closeRow_current now cur.sk c02 hcur2
            rw [he2] at hnkeq
            rw [List.mem_singleton.mp h1] at hnkeq
            have : c02 = cur := hone c02 hc02 cur hcm hcur02 hccur (by simpa [hcnk] using hnkeq.symm)
            exact hne2 (by rw [this])
          · rw [List.mem_singleton.mp h1, List.mem_singleton.mp h2]

/-- one Versioned Loader iteration keeps every row identity alive and never
touches an already-closed row -/
theorem custStep_preserves (hc : Bool) (now : Nat) (st : CustState) (r : CustRow)
    (hwf : CustWF st.table st.nextSk) :
    (∀ c ∈ st.table, ∃ c2 ∈ (custStep hc now st r).table, c2.sk = c.sk ∧ c2.nk = c.nk) ∧
    (∀ c ∈ st.table, c.isCurrent = false → c ∈ (custStep hc now st r).table) := by
  obtain ⟨hbound, hnodup, hvt, hone⟩ := hwf
  cases hnk : to_str r.nk with
  | none =>
    rw [custStep_skip hc now st r hnk]
    exact ⟨fun c h => ⟨c, h, rfl, rfl⟩, fun c h _ => h⟩
  | some nk =>
    cases hfc : findCurrent st.table (strLower nk) with
    | none =>
      rw [custStep_first hc now st r nk hnk hfc]
      dsimp only
      exact ⟨fun c h => ⟨c, List.mem_append_left _ h, rfl, rfl⟩,
        fun c h _ => List.mem_append_left _ h⟩
    | some cur =>
      obtain ⟨hcm, hcnk, hccur⟩ := findCurrent_mem st.table (strLower nk) cur hfc
      cases hEq : (if hc = true then cur.hashDiff == (if hc = true then r.hashDiff else none)
          else true) with
      | true =>
        rw [custStep_unchanged hc now st r nk cur hnk hfc hEq]
        exact ⟨fun c h => ⟨c, h, rfl, rfl⟩, fun c h _ => h⟩
      | false =>
        rw [custStep_changed hc now st r nk cur hnk hfc hEq]
        dsimp only
        constructor
        · intro c h
          exact ⟨closeRow now cur.sk c,
            List.mem_append_left _ (List.mem_map_of_mem _ h),
            closeRow_sk now cur.sk c, closeRow_nk now cur.sk c⟩
        · intro c h hclosed
          have hne : c.sk ≠ cur.sk := by
            intro he
            have hceq : c = cur := skInj st.table hnodup c h cur hcm he
            have h2 : cur.isCurrent = false := hceq ▸ hclosed
            rw [hccur] at h2
            cases h2
          apply List.mem_append_left
          rw [← closeRow_of_ne now cur.sk c hne]
          exact List.mem_map_of_mem _ h

/-- one Versioned Loader iteration keeps a current row alive for every key
that has one -/
theorem custStep_keeps_current (hc : Bool) (now : Nat) (st : CustState) (r : CustRow)
    (k : String) (hwf : CustWF st.table st.nextSk)
    (h : ∃ c ∈ st.table, c.nk = k ∧ c.isCurrent = true) :
    ∃ c ∈ (custStep hc now st r).table, c.nk = k ∧ c.isCurrent = true := by
  obtain ⟨c, hcm0, hcnk0, hccur0⟩ := h
  obtain ⟨hbound, hnodup, hvt, hone⟩ := hwf
  cases hnk : to_str r.nk with
  | none =>
    rw [custStep_skip hc now st r hnk]
    exact ⟨c, hcm0, hcnk0, hccur0⟩
  | some nk =>
    cases hfc : findCurrent st.table (strLower nk) with
    | none =>
      rw [custStep_first hc now st r nk hnk hfc]
      dsimp only
      exact ⟨c, List.mem_append_left _ hcm0, hcnk0, hccur0⟩
    | some cur =>
      obtain ⟨hcm, hcnk, hccur⟩ := findCurrent_mem st.table (strLower nk) cur hfc
      cases hEq : (if hc = true then cur.hashDiff == (if hc = true then r.hashDiff else none)
          else true) with
      | true =>
        rw [custStep_unchanged hc now st r nk cur hnk hfc hEq]
        exact ⟨c, hcm0, hcnk0, hccur0⟩
      | false =>
        rw [custStep_changed hc now st r nk cur hnk hfc hEq]
        dsimp only
        by_cases hkey : k = strLower nk
        · refine ⟨_, List.mem_append_right _ (List.mem_singleton_self _), ?_, rfl⟩
          rw [hkey]
        · have hne : c.sk ≠ cur.sk := by
            intro he
            have hceq : c = cur := skInj st.table hnodup c hcm0 cur hcm he
            apply hkey
            rw [← hcnk0, hceq, hcnk]
          refine ⟨c, List.mem_append_left _ ?_, hcnk0, hccur0⟩
          rw [← closeRow_of_ne now cur.sk c hne]
          exact List.mem_map_of_mem _ hcm0

/-- after processing a staged row with a usable key, a current row for that
key exists -/
theorem custStep_creates_current (hc : Bool) (now : Nat) (st : CustState) (r : CustRow)
    (nk : String) (hnk : to_str r.nk = some nk) :
    ∃ c ∈ (custStep hc now st r).table, c.nk = strLower nk ∧ c.isCurrent = true := by
  cases hfc : findCurrent st.table (strLower nk) with
  | none =>
    rw [custStep_first hc now st r nk hnk hfc]
    dsimp only
    exact ⟨_, List.mem_append_right _ (List.mem_singleton_self _), rfl, rfl⟩
  | some cur =>
    obtain ⟨hcm, hcnk, hccur⟩ := findCurrent_mem st.table (strLower nk) cur hfc
    cases hEq : (if hc = true then cur.hashDiff == (if hc = true then r.hashDiff else none)
        else true) with
    | true =>
      rw [custStep_unchanged hc now st r nk cur hnk hfc hEq]
      exact ⟨cur, hcm, hcnk, hccur⟩
    | false =>
      rw [custStep_changed hc now st r nk cur hnk hfc hEq]
      dsimp only
      exact ⟨_, List.mem_append_right _ (List.mem_singleton_self _), rfl, rfl⟩

/-- the run-level invariant: well-formedness, closed-row persistence, row
survival and current-row persistence all hold at the end of the fold -/
theorem custRun_inv (hc : Bool) (now : Nat) (l : List CustRow) :
    ∀ st : CustState, CustWF st.table st.nextSk →
    CustWF ((l.foldl (custStep hc now) st).table) ((l.foldl (custStep hc now) st).nextSk) ∧
    (∀ c ∈ st.table, c.isCurrent = false → c ∈ (l.foldl (custStep hc now) st).table) ∧
    (∀ c ∈ st.table, ∃ c2 ∈ (l.foldl (custStep hc now) st).table,
      c2.sk = c.sk ∧ c2.nk = c.nk) ∧
    (∀ k, (∃ c ∈ st.table, c.nk = k ∧ c.isCurrent = true) →
      ∃ c ∈ (l.foldl (custStep hc now) st).table, c.nk = k ∧ c.isCurrent = true) := by
  induction l with
  | nil =>
    intro st h
    exact ⟨h, fun c h1 _ => h1, fun c h1 => ⟨c, h1, rfl, rfl⟩, fun k hk => hk⟩
  | cons a l ih =>
    intro st hwf
    have hstepwf := custStep_WF hc now st a hwf
    obtain ⟨ha, hb, hcc, hd⟩ := ih (custStep hc now st a) hstepwf
    refine ⟨ha, ?_, ?_, ?_⟩
    · intro c hcm hclosed
      exact hb c ((custStep_preserves hc now st a hwf).2 c hcm hclosed) hclosed
    · intro c hcm
      obtain ⟨c2, h2m, h2sk, h2nk⟩ := (custStep_preserves hc now st a hwf).1 c hcm
      obtain ⟨c3, h3m, h3sk, h3nk⟩ := hcc c2 h2m
      exact ⟨c3, h3m, by rw [h3sk, h2sk], by rw [h3nk, h2nk]⟩
    · intro k hk
      exact hd k (custStep_keeps_current hc now st a k hwf hk)

/-- every processed key has a current row at the end of the run -/
theorem custRun_processed (hc : Bool) (now : Nat) (l : List CustRow) :
    ∀ st : CustState, CustWF st.table st.nextSk →
    ∀ r ∈ l, ∀ nk, to_str r.nk = some nk →
    ∃ c ∈ (l.foldl (custStep hc now) st).table, c.nk = strLower nk ∧ c.isCurrent = true := by
  induction l with
  | nil => intro st _ r hr; cases hr
  | cons a l ih =>
    intro st hwf r hr nk hnk
    rcases List.mem_cons.mp hr with rfl | hr2
    · have hcur := custStep_creates_current hc now st r nk hnk
      have hstepwf := custStep_WF hc now st r hwf
      exact (custRun_inv hc now l (custStep hc now st r) hstepwf).2.2.2 (strLower nk) hcur
    · exact ih (custStep hc now st a) (custStep_WF hc now st a hwf) r hr2 nk hnk

/-- C5 — Versioned Loader history law: from a well-formed customer dimension
(at most one current row per key, ValidTo null iff current, distinct bounded
surrogate keys), a run preserves well-formedness, leaves exactly one current
row for every processed key (existence here, uniqueness inside the preserved
invariant), deletes no row (every surrogate key survives with its natural
key), and never touches an already-closed row, so the closed-row set only
grows. -/
theorem C5_scd2_history_invariant (hc : Bool) (now : Nat) (table : List StoredCust)
    (nextSk : Nat) (staged : List CustRow) (hwf : CustWF table nextSk) :
    CustWF (stage_customer_scd2 hc now table nextSk staged).table
      (stage_customer_scd2 hc now table nextSk staged).nextSk ∧
    (∀ k ∈ processedKeys staged,
      ∃ c ∈ (stage_customer_scd2 hc now table nextSk staged).table,
        c.nk = k ∧ c.isCurrent = true) ∧
    (∀ c ∈ table, ∃ c2 ∈ (stage_customer_scd2 hc now table nextSk staged).table,
      c2.sk = c.sk ∧ c2.nk = c.nk) ∧
    (∀ c ∈ table, c.isCurrent = false →
      c ∈ (stage_customer_scd2 hc now table nextSk staged).table) := by
  have hinit : CustWF
      ({ table := table, nextSk := nextSk, inserted_new := 0, scd2_changed := 0,
         unchanged := 0, closed_old := 0 } : CustState).table
      ({ table := table, nextSk := nextSk, inserted_new := 0, scd2_changed := 0,
         unchanged := 0, closed_old := 0 } : CustState).nextSk := hwf
  obtain ⟨ha, hb, hcc, hd⟩ := custRun_inv hc now staged _ hinit
  refine ⟨ha, ?_, hcc, hb⟩
  intro k hk
  obtain ⟨r, hr, hmap⟩ := List.mem_filterMap.mp hk
  obtain ⟨nk, hnk, hlow⟩ := Option.map_eq_some'.mp hmap
  rw [← hlow]
  exact custRun_processed hc now staged _ hinit r hr nk hnk

/-- C5 witness: the history law applied to a one-row staged load against an
empty well-formed dimension -/
theorem C5_scd2_history_invariant_witness :
    ∃ c ∈ (stage_customer_scd2 true 5 [] 1
      [{ nk := some "a@x.com", displayName := none, phone := none, notes := none,
         hashDiff := some [1] }]).table, c.nk = "a@x.com" ∧ c.isCurrent = true :=
  (C5_scd2_history_invariant true 5 [] 1
    [{ nk := some "a@x.com", displayName := none, phone := none, notes := none,
       hashDiff := some [1] }]
    (by simp [CustWF, SkBound, SkNodup, ValidToIff, AtMostOneCurrent])).2.1
    "a@x.com" (by decide)

end ETL
